import Mathlib

/-!
Verification of the WeChat new-year greeting helper.

The development shallowly embeds the two Python source files
(`main.py` and `src/wechat_helper.py`) over `List Char`:

* character classes `pySpace` and `isCJK` model Python's whitespace test
  (ASCII whitespace; `str.strip`/`str.split` use the same class, which is
  all the proofs depend on) and the `'一' <= c <= '鿿'` range test;
* `strip`, `splitPy`, `joinSpace`, `runsOf` model `str.strip()`,
  `str.split()`, `" ".join(...)` and `re.findall(r'[一-鿿]+', ...)`;
* `parse_name` embeds `main.parse_name`, `wechat_parse_name` embeds
  `WeChatHelper._parse_name`, `generate_reply` embeds `main.generate_reply`
  (the random draw becomes an explicit index), `extract_chinese_name`
  embeds `WeChatHelper._extract_chinese_name`, `get_current_contact`
  embeds `WeChatHelper.get_current_contact` (OCR outcome passed as a
  value, exceptions as `Except.error`), `send_message` embeds
  `WeChatHelper.send_message` over an explicit clipboard and a fault
  schedule naming which fallible library call raises, and
  `main_startup` embeds the startup sequence of `main.main`;
* the hotkey dispatch of `_handle_hotkey` / `on_hotkey` becomes a small
  interleaving semantics (`stepT` / `run`) over two trigger threads.
-/

/-- Python whitespace class used by `str.strip()` and `str.split()`
(ASCII fragment; both operations share the class). -/
def pySpace (c : Char) : Bool :=
  c = ' ' || c = '\t' || c = '\n' || c = '\r' || c = '\x0b' || c = '\x0c'

/-- The test `'一' <= c <= '鿿'` from both name parsers. -/
def isCJK (c : Char) : Bool :=
  0x4e00 ≤ c.toNat && c.toNat ≤ 0x9fff

/-- `str.strip()`: drop whitespace from both ends. -/
def strip (l : List Char) : List Char :=
  (((l.dropWhile pySpace).reverse.dropWhile pySpace)).reverse

/-- Maximal contiguous runs of characters satisfying `p`, in order of
occurrence; models `re.findall` of a character-class `+` pattern. -/
def runsOf (p : Char → Bool) : List Char → List (List Char)
  | [] => []
  | [c] => if p c then [[c]] else []
  | c :: d :: t =>
    if p c then
      if p d then
        match runsOf p (d :: t) with
        | r :: rs => (c :: r) :: rs
        | [] => [[c]]
      else [c] :: runsOf p (d :: t)
    else runsOf p (d :: t)

/-- `str.split()` with no argument: maximal runs of non-whitespace. -/
def splitPy (l : List Char) : List (List Char) :=
  runsOf (fun c => !pySpace c) l

/-- `" ".join(parts)`. -/
def joinSpace (parts : List (List Char)) : List Char :=
  List.intercalate [' '] parts

/-- `main.parse_name`: returns the `(surname, given_name)` pair. -/
def parse_name (full_name : List Char) : List Char × List Char :=
  if full_name = [] then ([], [])
  else
    let s := strip full_name
    if s.any isCJK then
      if 2 ≤ s.length then (s.take 1, s.drop 1) else (s, [])
    else
      let parts := splitPy s
      if 2 ≤ parts.length then (parts.getLastD [], joinSpace parts.dropLast)
      else if parts.length = 1 then (parts.headD [], [])
      else ([], [])

/-- The `ContactInfo` dataclass of `wechat_helper.py`. -/
structure ContactInfo where
  full_name : List Char
  surname : List Char
  given_name : List Char
deriving DecidableEq, Repr

/-- `WeChatHelper._parse_name`. -/
def wechat_parse_name (full_name : List Char) : ContactInfo :=
  let s := strip full_name
  if s.any isCJK then
    if 2 ≤ s.length then ⟨s, s.take 1, s.drop 1⟩ else ⟨s, s, []⟩
  else
    let parts := splitPy s
    if 2 ≤ parts.length then ⟨s, parts.getLastD [], joinSpace parts.dropLast⟩
    else ⟨s, s, []⟩

theorem length_dropWhile_le_self (p : Char → Bool) :
    ∀ l : List Char, (l.dropWhile p).length ≤ l.length := by
  intro l
  induction l with
  | nil => simp
  | cons c t ih =>
    rw [List.dropWhile_cons]
    by_cases hc : p c
    · simp only [hc, if_true]
      exact le_trans ih (Nat.le_succ _)
    · simp [hc]

theorem dropWhile_head_false (p : Char → Bool) :
    ∀ (l : List Char) (c : Char) (t : List Char),
      List.dropWhile p l = c :: t → p c = false := by
  intro l
  induction l with
  | nil => intro c t h; simp at h
  | cons d r ih =>
    intro c t h
    rw [List.dropWhile_cons] at h
    by_cases hd : p d
    · exact ih c t (by simpa [hd] using h)
    · obtain ⟨rfl, rfl⟩ := by simpa [hd] using h
      simpa using hd

theorem dropWhile_eq_self_of_head (p : Char → Bool) (l : List Char)
    (h : ∀ c, l.head? = some c → p c = false) : l.dropWhile p = l := by
  cases l with
  | nil => rfl
  | cons c t => simp [List.dropWhile_cons, h c rfl]

theorem dropWhile_eq_nil_of_all (p : Char → Bool) :
    ∀ l : List Char, (∀ c ∈ l, p c = true) → l.dropWhile p = [] := by
  intro l
  induction l with
  | nil => intro _; rfl
  | cons c t ih =>
    intro h
    rw [List.dropWhile_cons]
    simp only [h c (by simp), if_true]
    exact ih fun d hd => h d (by simp [hd])

theorem runsOf_cons (p : Char → Bool) (c : Char) (l : List Char) :
    runsOf p (c :: l) =
      if p c then (c :: l.takeWhile p) :: runsOf p (l.dropWhile p)
      else runsOf p l := by
  induction l generalizing c with
  | nil => by_cases hc : p c <;> simp [runsOf, hc]
  | cons d t ih =>
    by_cases hc : p c
    · by_cases hd : p d
      · have hdt : runsOf p (d :: t) = (d :: t.takeWhile p) :: runsOf p (t.dropWhile p) := by
          rw [ih d]; simp [hd]
        simp only [runsOf, hc, hd, if_true]
        rw [hdt]
        simp [List.takeWhile_cons, List.dropWhile_cons, hd]
      · simp only [runsOf, hc, hd, if_true, if_false, Bool.false_eq_true]
        simp [List.takeWhile_cons, List.dropWhile_cons, hd]
    · simp [runsOf, hc]

theorem nil_not_mem_runsOf (p : Char → Bool) (l : List Char) : [] ∉ runsOf p l := by
  have key : ∀ n, ∀ l : List Char, l.length ≤ n → [] ∉ runsOf p l := by
    intro n
    induction n with
    | zero =>
      intro l hl
      have : l = [] := List.length_eq_zero.mp (Nat.le_zero.mp hl)
      subst this
      simp [runsOf]
    | succ n ih =>
      intro l hl
      cases l with
      | nil => simp [runsOf]
      | cons c rest =>
        rw [runsOf_cons]
        by_cases hc : p c
        · simp only [hc, if_true, List.mem_cons]
          rintro (h | h)
          · exact List.cons_ne_nil _ _ h.symm
          · exact ih (rest.dropWhile p)
              (le_trans (length_dropWhile_le_self p rest) (by simpa using hl)) h
        · simp only [hc, if_false]
          exact ih rest (by simpa using hl)
  exact key l.length l le_rfl

theorem runsOf_eq_nil (p : Char → Bool) (l : List Char) (h : runsOf p l = []) :
    ∀ c ∈ l, p c = false := by
  have key : ∀ n, ∀ l : List Char, l.length ≤ n → runsOf p l = [] → ∀ c ∈ l, p c = false := by
    intro n
    induction n with
    | zero =>
      intro l hl
      have : l = [] := List.length_eq_zero.mp (Nat.le_zero.mp hl)
      subst this
      intro _ c hc
      simp at hc
    | succ n ih =>
      intro l hl h c hc
      cases l with
      | nil => simp at hc
      | cons a rest =>
        rw [runsOf_cons] at h
        by_cases ha : p a
        · simp [ha] at h
        · simp only [ha, if_false] at h
          rcases List.mem_cons.mp hc with rfl | hc
          · simpa using ha
          · exact ih rest (by simpa using hl) h c hc
  exact key l.length l le_rfl h

theorem runsOf_singleton (p : Char → Bool) (l t : List Char)
    (hh : ∀ c, l.head? = some c → p c = true)
    (hl : ∀ c, l.getLast? = some c → p c = true)
    (h : runsOf p l = [t]) : t = l := by
  cases l with
  | nil => simp [runsOf] at h
  | cons c rest =>
    have hc : p c = true := hh c rfl
    rw [runsOf_cons] at h
    simp only [hc, if_true, List.cons.injEq] at h
    obtain ⟨rfl, hrest⟩ := h
    have hdrop : rest.dropWhile p = [] := by
      by_contra hne
      have hx := List.getLast?_eq_getLast _ hne
      set x := (rest.dropWhile p).getLast hne with hxdef
      have hxmem : x ∈ rest.dropWhile p := List.getLast_mem hne
      have hxfalse : p x = false := runsOf_eq_nil p _ hrest x hxmem
      have hsplit : rest.takeWhile p ++ rest.dropWhile p = rest :=
        List.takeWhile_append_dropWhile p rest
      have hlast : (c :: rest).getLast? = some x := by
        rw [show (c :: rest : List Char) = (c :: rest.takeWhile p) ++ rest.dropWhile p by
          simp [hsplit]]
        rw [List.getLast?_append_of_ne_nil _ hne, hx]
      have := hl x hlast
      rw [this] at hxfalse
      exact Bool.true_eq_false.mp hxfalse
    have : rest.takeWhile p = rest := by
      have hsplit := List.takeWhile_append_dropWhile p rest
      rw [hdrop] at hsplit
      simpa using hsplit
    rw [this]

theorem strip_getLast (l : List Char) (c : Char)
    (h : (strip l).getLast? = some c) : pySpace c = false := by
  unfold strip at h
  rw [List.getLast?_reverse] at h
  cases hn : (l.dropWhile pySpace).reverse.dropWhile pySpace with
  | nil => rw [hn] at h; simp at h
  | cons x t =>
    rw [hn] at h
    simp only [List.head?] at h
    have hxc : x = c := by simpa using h
    subst hxc
    exact dropWhile_head_false pySpace _ x t hn

theorem strip_head (l : List Char) (c : Char)
    (h : (strip l).head? = some c) : pySpace c = false := by
  unfold strip at h
  rw [List.head?_reverse] at h
  have hne : (l.dropWhile pySpace).reverse.dropWhile pySpace ≠ [] := by
    intro hnil
    rw [hnil] at h
    simp at h
  have hsplit := List.takeWhile_append_dropWhile pySpace (l.dropWhile pySpace).reverse
  have hlast : ((l.dropWhile pySpace).reverse.dropWhile pySpace).getLast?
      = (l.dropWhile pySpace).reverse.getLast? := by
    conv_rhs => rw [← hsplit]
    rw [List.getLast?_append_of_ne_nil _ hne]
  rw [hlast, List.getLast?_reverse] at h
  cases hm : l.dropWhile pySpace with
  | nil => rw [hm] at h; simp at h
  | cons x t =>
    rw [hm] at h
    have hxc : x = c := by simpa using h
    subst hxc
    exact dropWhile_head_false pySpace l x t hm

theorem strip_idem (l : List Char) : strip (strip l) = strip l := by
  cases hs : strip l with
  | nil => rfl
  | cons c t =>
    have h1 : (strip l).dropWhile pySpace = strip l := by
      apply dropWhile_eq_self_of_head
      intro x hx
      exact strip_head l x (hs ▸ hx)
    have h2 : (strip l).reverse.dropWhile pySpace = (strip l).reverse := by
      apply dropWhile_eq_self_of_head
      intro x hx
      rw [List.head?_reverse] at hx
      exact strip_getLast l x hx
    rw [← hs]
    show (((strip l).dropWhile pySpace).reverse.dropWhile pySpace).reverse = strip l
    rw [h1, h2, List.reverse_reverse]

theorem any_dropWhile (p q : Char → Bool) (hq : ∀ c, p c = true → q c = false)
    (l : List Char) : (l.dropWhile p).any q = l.any q := by
  conv_rhs => rw [← List.takeWhile_append_dropWhile p l]
  rw [List.any_append]
  have h : (l.takeWhile p).any q = false := by
    rw [List.any_eq_false]
    intro x hx
    simp [hq x (List.mem_takeWhile_imp hx)]
  rw [h]
  simp

theorem strip_any (q : Char → Bool) (hq : ∀ c, pySpace c = true → q c = false)
    (l : List Char) : (strip l).any q = l.any q := by
  unfold strip
  rw [List.any_reverse, any_dropWhile pySpace q hq, List.any_reverse,
    any_dropWhile pySpace q hq]

theorem strip_eq_nil_of_all_space (l : List Char)
    (h : ∀ c ∈ l, pySpace c = true) : strip l = [] := by
  unfold strip
  rw [dropWhile_eq_nil_of_all pySpace l h]
  rfl

theorem pySpace_not_cjk (c : Char) (h : pySpace c = true) : isCJK c = false := by
  have hc : ((((c = ' ' ∨ c = '\t') ∨ c = '\n') ∨ c = '\r') ∨ c = '\x0b') ∨ c = '\x0c' := by
    simpa [pySpace] using h
  rcases hc with ((((rfl | rfl) | rfl) | rfl) | rfl) | rfl <;> decide

theorem getLastD_mem {α : Type} :
    ∀ (l : List α) (d : α), l ≠ [] → l.getLastD d ∈ l := by
  intro l
  induction l with
  | nil => intro d h; exact absurd rfl h
  | cons a t ih =>
    intro d _
    cases t with
    | nil => simp
    | cons b u =>
      have hmem := ih a (by simp)
      have hred : (a :: b :: u : List α).getLastD d = (b :: u).getLastD a := rfl
      rw [hred]
      exact List.mem_cons_of_mem a hmem

theorem strip_any_cjk (l : List Char) : (strip l).any isCJK = l.any isCJK :=
  strip_any isCJK pySpace_not_cjk l

theorem splitPy_strip_nil (l : List Char) (h : splitPy (strip l) = []) :
    strip l = [] := by
  cases hsl : strip l with
  | nil => rfl
  | cons c t =>
    have hall := runsOf_eq_nil (fun c => !pySpace c) (strip l) h c (by rw [hsl]; simp)
    have hhead := strip_head l c (by rw [hsl]; rfl)
    simp [hhead] at hall

theorem splitPy_strip_singleton (l t : List Char)
    (h : splitPy (strip l) = [t]) : t = strip l := by
  apply runsOf_singleton (fun c => !pySpace c) (strip l) t _ _ h
  · intro c hc
    simp [strip_head l c hc]
  · intro c hc
    simp [strip_getLast l c hc]

theorem wechat_full_name (l : List Char) :
    (wechat_parse_name l).full_name = strip l := by
  unfold wechat_parse_name
  dsimp only
  split <;> split <;> rfl

theorem parse_pair_eq (l : List Char) :
    parse_name l = ((wechat_parse_name l).surname, (wechat_parse_name l).given_name) := by
  by_cases hnil : l = []
  · subst hnil; decide
  · unfold parse_name wechat_parse_name
    simp only [hnil, if_false]
    by_cases hcjk : (strip l).any isCJK
    · simp only [hcjk, if_true]
      by_cases hlen : 2 ≤ (strip l).length <;> simp [hlen]
    · simp only [hcjk, if_false, Bool.false_eq_true]
      rcases hparts : splitPy (strip l) with _ | ⟨t, rest⟩
      · have hsnil : strip l = [] := splitPy_strip_nil l hparts
        simp [hparts, hsnil]
      · rcases rest with _ | ⟨t2, rest2⟩
        · have hts : t = strip l := splitPy_strip_singleton l t hparts
          simp [hparts, hts]
        · simp [hparts]

theorem wechat_parse_strip (l : List Char) :
    wechat_parse_name (strip l) = wechat_parse_name l := by
  unfold wechat_parse_name
  rw [strip_idem]

theorem parse_name_strip (l : List Char) :
    parse_name (strip l) = parse_name l := by
  by_cases hnil : l = []
  · subst hnil; rfl
  · by_cases hsnil : strip l = []
    · rw [hsnil]
      have : parse_name l = ([], []) := by
        unfold parse_name
        simp [hnil, hsnil, splitPy, runsOf]
      rw [this]
      rfl
    · unfold parse_name
      simp [hnil, hsnil, strip_idem]

/-- C9: the two independently implemented name parsers agree: for every
input string, `main.parse_name` returns exactly the `(surname, given_name)`
pair of the `ContactInfo` produced by `WeChatHelper._parse_name`; that
`ContactInfo`'s `full_name` is the input stripped of leading/trailing
whitespace, and stripping the input first changes neither parser's
result. -/
theorem parsers_agree (l : List Char) :
    parse_name l = ((wechat_parse_name l).surname, (wechat_parse_name l).given_name)
    ∧ (wechat_parse_name l).full_name = strip l
    ∧ wechat_parse_name (strip l) = wechat_parse_name l
    ∧ parse_name (strip l) = parse_name l :=
  ⟨parse_pair_eq l, wechat_full_name l, wechat_parse_strip l, parse_name_strip l⟩

/-- C8: every `ContactInfo` the program constructs (they are all built by
`WeChatHelper._parse_name`) satisfies: if `full_name` is non-empty then
`surname` is non-empty. -/
theorem contact_info_invariant (l : List Char)
    (h : (wechat_parse_name l).full_name ≠ []) :
    (wechat_parse_name l).surname ≠ [] := by
  rw [wechat_full_name l] at h
  by_cases hcjk : (strip l).any isCJK = true
  · by_cases hlen : 2 ≤ (strip l).length
    · have hsur : (wechat_parse_name l).surname = (strip l).take 1 := by
        unfold wechat_parse_name
        dsimp only
        rw [if_pos hcjk, if_pos hlen]
      rw [hsur]
      cases hs : strip l with
      | nil => exact absurd hs h
      | cons c tl => simp [hs]
    · have hsur : (wechat_parse_name l).surname = strip l := by
        unfold wechat_parse_name
        dsimp only
        rw [if_pos hcjk, if_neg hlen]
      rw [hsur]
      exact h
  · rcases hparts : splitPy (strip l) with _ | ⟨t, rest⟩
    · have hsur : (wechat_parse_name l).surname = strip l := by
        unfold wechat_parse_name
        dsimp only
        rw [if_neg hcjk, hparts, if_neg (by simp)]
      rw [hsur]
      exact h
    · rcases rest with _ | ⟨t2, r2⟩
      · have hsur : (wechat_parse_name l).surname = strip l := by
          unfold wechat_parse_name
          dsimp only
          rw [if_neg hcjk, hparts, if_neg (by simp)]
        rw [hsur]
        exact h
      · have hmem : (t :: t2 :: r2 : List (List Char)).getLastD [] ∈ t :: t2 :: r2 :=
          getLastD_mem _ _ (by simp)
        have hnil2 : [] ∉ splitPy (strip l) := nil_not_mem_runsOf _ _
        rw [hparts] at hnil2
        have hsur : (wechat_parse_name l).surname = (t :: t2 :: r2).getLastD [] := by
          unfold wechat_parse_name
          dsimp only
          rw [if_neg hcjk, hparts, if_pos (by simp only [List.length_cons]; omega)]
        rw [hsur]
        intro heq
        exact hnil2 (heq ▸ hmem)

theorem contact_info_invariant_witness :
    (wechat_parse_name "李雷".toList).surname ≠ [] :=
  contact_info_invariant "李雷".toList (by decide)

/-- C3 (amended): `parse_name` strips leading/trailing whitespace first.
If the input contains any CJK ideograph, the result is the first character
of the stripped input paired with its remaining characters (given name
empty when the stripped input is a single character); otherwise the result
is the last whitespace-delimited token paired with the remaining tokens
joined by single spaces (given name empty for a single token, both
components empty when there is no token).  The spec's five examples hold. -/
theorem parse_name_spec :
    (∀ l : List Char, l ≠ [] → l.any isCJK = true →
        parse_name l = ((strip l).take 1, (strip l).drop 1))
    ∧ (∀ l : List Char, l.any isCJK = false →
        (splitPy (strip l) = [] → parse_name l = ([], []))
        ∧ (∀ t rest, splitPy (strip l) = t :: rest →
            parse_name l = ((t :: rest).getLastD [], joinSpace (t :: rest).dropLast)))
    ∧ parse_name "李雷".toList = (['李'], ['雷'])
    ∧ parse_name ['李'] = (['李'], [])
    ∧ parse_name "John Smith".toList = ("Smith".toList, "John".toList)
    ∧ parse_name "Madonna".toList = ("Madonna".toList, [])
    ∧ parse_name [] = ([], []) := by
  refine ⟨?_, ?_, by decide, by decide, by decide, by decide, by decide⟩
  · intro l hnil hcjk
    have hcjk2 : (strip l).any isCJK = true := by rw [strip_any_cjk]; exact hcjk
    obtain ⟨c, hcmem, _⟩ := List.any_eq_true.mp hcjk2
    have hsnil : strip l ≠ [] := List.ne_nil_of_mem hcmem
    unfold parse_name
    dsimp only
    rw [if_neg hnil, if_pos hcjk2]
    by_cases hlen : 2 ≤ (strip l).length
    · rw [if_pos hlen]
    · rw [if_neg hlen]
      have hone : (strip l).length = 1 := by
        have := List.length_pos.mpr hsnil
        omega
      obtain ⟨x, hx⟩ := List.length_eq_one.mp hone
      rw [hx]
      rfl
  · intro l hcjk
    by_cases hnil : l = []
    · subst hnil
      constructor
      · intro _; rfl
      · intro t rest habs
        simp [splitPy, runsOf, strip] at habs
    · have hcjk2 : ¬((strip l).any isCJK = true) := by
        rw [strip_any_cjk, hcjk]
        simp
      constructor
      · intro hparts
        unfold parse_name
        dsimp only
        rw [if_neg hnil, if_neg hcjk2, hparts]
        rfl
      · intro t rest hparts
        rcases rest with _ | ⟨t2, r2⟩
        · unfold parse_name
          dsimp only
          rw [if_neg hnil, if_neg hcjk2, hparts, if_neg (by simp)]
          rfl
        · unfold parse_name
          dsimp only
          rw [if_neg hnil, if_neg hcjk2, hparts,
            if_pos (by simp only [List.length_cons]; omega)]

theorem parse_name_spec_witness :
    parse_name "李雷".toList = ((strip "李雷".toList).take 1, (strip "李雷".toList).drop 1)
    ∧ parse_name "Bob".toList
        = (("Bob".toList :: []).getLastD [], joinSpace ("Bob".toList :: []).dropLast) :=
  ⟨parse_name_spec.1 "李雷".toList (by decide) (by decide),
   (parse_name_spec.2.1 "Bob".toList (by decide)).2 "Bob".toList [] (by decide)⟩

/-- C3 counterexample: the input `" 李"` (a space followed by a CJK
character) contains a CJK ideograph, so the claim as stated predicts the
pair `(" ", "李")` — the raw input's first character and its remaining
characters — but `parse_name` strips whitespace first and returns
`("李", "")`. -/
theorem parse_name_unstripped_cx :
    parse_name [' ', '李'] = (['李'], [])
    ∧ ¬ parse_name [' ', '李'] = ([' '], ['李']) := by decide

/-- The denylist of UI strings in `WeChatHelper._extract_chinese_name`. -/
def uiDenylist : List (List Char) :=
  ["微信".toList, "聊天".toList, "通讯录".toList, "搜索".toList, "文件传输助手".toList]

/-- `text.replace(" ", "")`. -/
def removeSpaces (l : List Char) : List Char :=
  l.filter (fun c => !(c = ' '))

/-- `WeChatHelper._extract_chinese_name`: over the space-stripped text,
the first CJK ideograph run of length 2..8 that is not denylisted. -/
def extract_chinese_name (text : List Char) : Option (List Char) :=
  (runsOf isCJK (removeSpaces text)).find?
    (fun nm => decide (2 ≤ nm.length) && decide (nm.length ≤ 8)
      && !(decide (nm ∈ uiDenylist)))

/-- C6 (amended): any candidate the extractor returns is a maximal CJK
ideograph run of the space-stripped text, has length between 2 and 8, and
is never a denylisted UI string; conversely whenever some maximal run
qualifies, the extractor returns a candidate (the first qualifying run in
left-to-right order, not the longest); a text consisting solely of the
denylisted string `"文件传输助手"` yields no candidate. -/
theorem extract_name_valid :
    (∀ text nm, extract_chinese_name text = some nm →
        2 ≤ nm.length ∧ nm.length ≤ 8 ∧ nm ∉ uiDenylist
          ∧ nm ∈ runsOf isCJK (removeSpaces text))
    ∧ (∀ text m, m ∈ runsOf isCJK (removeSpaces text) →
        2 ≤ m.length → m.length ≤ 8 → m ∉ uiDenylist →
        ∃ k, extract_chinese_name text = some k)
    ∧ extract_chinese_name "文件传输助手".toList = none := by
  refine ⟨?_, ?_, by decide⟩
  · intro text nm h
    have hp := List.find?_some h
    have hmem := List.mem_of_find?_eq_some h
    simp only [Bool.and_eq_true, decide_eq_true_eq, Bool.not_eq_true',
      decide_eq_false_iff_not] at hp
    exact ⟨hp.1.1, hp.1.2, hp.2, hmem⟩
  · intro text m hmem h2 h8 hd
    have hsome : ((runsOf isCJK (removeSpaces text)).find?
        (fun nm => decide (2 ≤ nm.length) && decide (nm.length ≤ 8)
          && !(decide (nm ∈ uiDenylist)))).isSome = true := by
      rw [List.find?_isSome]
      exact ⟨m, hmem, by simp [h2, h8, hd]⟩
    exact Option.isSome_iff_exists.mp hsome

theorem extract_name_valid_witness :
    (2 ≤ "张三".toList.length ∧ "张三".toList.length ≤ 8 ∧ "张三".toList ∉ uiDenylist
      ∧ "张三".toList ∈ runsOf isCJK (removeSpaces "张三".toList))
    ∧ ∃ k, extract_chinese_name "张三".toList = some k :=
  ⟨extract_name_valid.1 "张三".toList "张三".toList (by decide),
   extract_name_valid.2.1 "张三".toList "张三".toList (by decide) (by decide) (by decide)
     (by decide)⟩

/-- C6 counterexample: on OCR text `"你好a张三丰"` the maximal CJK runs are
`"你好"` (length 2) and `"张三丰"` (length 3); both qualify, yet the
extractor returns the first, `"你好"`, not the longest (`"张三丰"`). -/
theorem extract_name_not_longest :
    extract_chinese_name "你好a张三丰".toList = some "你好".toList
    ∧ "张三丰".toList ∈ runsOf isCJK (removeSpaces "你好a张三丰".toList)
    ∧ 2 ≤ "张三丰".toList.length ∧ "张三丰".toList.length ≤ 8
    ∧ "张三丰".toList ∉ uiDenylist
    ∧ ("你好".toList).length < ("张三丰".toList).length := by decide

/-- Fuel-indexed core of Python `str.replace` (left-to-right,
non-overlapping); one unit of fuel per emitted position, so fuel equal to
the text length always suffices. -/
def replaceListAux (pat rep : List Char) : Nat → List Char → List Char
  | _, [] => []
  | 0, l => l
  | fuel + 1, c :: rest =>
    if pat ≠ [] ∧ (c :: rest).take pat.length = pat then
      rep ++ replaceListAux pat rep fuel ((c :: rest).drop pat.length)
    else c :: replaceListAux pat rep fuel rest

/-- Python `text.replace(pat, rep)` for a non-empty literal pattern. -/
def replaceList (pat rep text : List Char) : List Char :=
  replaceListAux pat rep text.length text

/-- `main.generate_reply`; the `random.choice` draw is modelled by an
explicit index into the template list. -/
def generate_reply (replies : List (List Char)) (choice : Nat)
    (contact_info : Option ContactInfo) : Option (List Char) :=
  if replies = [] then none
  else
    let template := replies.getD choice []
    match contact_info with
    | some ci =>
      some (replaceList "{given_name}".toList ci.given_name
        (replaceList "{surname}".toList ci.surname
          (replaceList "{name}".toList ci.full_name template)))
    | none =>
      some (replaceList "{given_name}".toList []
        (replaceList "{surname}".toList []
          (replaceList "{name}".toList [] template)))

/-- C5: `generate_reply` returns nothing when the template list is empty,
for any contact and any random draw; otherwise it returns the drawn
template with every occurrence of the literal substrings `{name}`,
`{surname}`, `{given_name}` replaced (in that order) by the contact's
fields, and with all three replaced by the empty string when the contact
is absent; in particular `generate(["Hi {name}"], None) = "Hi "` and
`generate(["Hi {surname}{given_name}"], ("李雷","李","雷")) = "Hi 李雷"`. -/
theorem generate_reply_spec :
    (∀ choice c, generate_reply [] choice c = none)
    ∧ (∀ replies choice (ci : ContactInfo) (h : choice < replies.length),
        generate_reply replies choice (some ci)
          = some (replaceList "{given_name}".toList ci.given_name
              (replaceList "{surname}".toList ci.surname
                (replaceList "{name}".toList ci.full_name (replies.get ⟨choice, h⟩)))))
    ∧ (∀ replies choice (h : choice < replies.length),
        generate_reply replies choice none
          = some (replaceList "{given_name}".toList []
              (replaceList "{surname}".toList []
                (replaceList "{name}".toList [] (replies.get ⟨choice, h⟩)))))
    ∧ generate_reply ["Hi {name}".toList] 0 none = some "Hi ".toList
    ∧ generate_reply ["Hi {surname}{given_name}".toList] 0
        (some ⟨"李雷".toList, ['李'], ['雷']⟩) = some "Hi 李雷".toList := by
  refine ⟨?_, ?_, ?_, by decide, by decide⟩
  · intro choice c
    rfl
  · intro replies choice ci h
    have hne : replies ≠ [] := List.ne_nil_of_length_pos (lt_of_le_of_lt (Nat.zero_le _) h)
    unfold generate_reply
    dsimp only
    rw [if_neg hne, List.getD_eq_getElem _ _ h]
    simp [List.get_eq_getElem]
  · intro replies choice h
    have hne : replies ≠ [] := List.ne_nil_of_length_pos (lt_of_le_of_lt (Nat.zero_le _) h)
    unfold generate_reply
    dsimp only
    rw [if_neg hne, List.getD_eq_getElem _ _ h]
    simp [List.get_eq_getElem]

theorem generate_reply_spec_witness :
    generate_reply ["Hi {name}".toList] 0 (some ⟨"李雷".toList, ['李'], ['雷']⟩)
      = some (replaceList "{given_name}".toList ['雷']
          (replaceList "{surname}".toList ['李']
            (replaceList "{name}".toList "李雷".toList
              (["Hi {name}".toList].get ⟨0, by decide⟩)))) :=
  generate_reply_spec.2.1 ["Hi {name}".toList] 0 ⟨"李雷".toList, ['李'], ['雷']⟩ (by decide)

/-- Python truthiness of an `Optional[str]` value. -/
def truthyStr : Option (List Char) → Bool
  | none => false
  | some s => !s.isEmpty

/-- Python truthiness of the `wechat_hwnd` field. -/
def truthyHwnd : Option Nat → Bool
  | none => false
  | some h => h != 0

/-- `WeChatHelper.get_current_contact` with the helper state explicit:
`hwnd` is `self.wechat_hwnd`, `cache` is `self.current_contact_name`, and
`ocr` is the outcome of `self._ocr_contact_name()` (`Except.error ()`
modelling an exception raised inside the `try`, caught by the handler).
Returns the recognition result together with the updated cache. -/
def get_current_contact (hwnd : Option Nat) (cache : Option (List Char))
    (ocr : Except Unit (Option (List Char))) :
    Option ContactInfo × Option (List Char) :=
  if truthyHwnd hwnd = false then (none, cache)
  else
    match ocr with
    | .ok r =>
      if truthyStr r then (some (wechat_parse_name (r.getD [])), r)
      else if truthyStr cache then (some (wechat_parse_name (cache.getD [])), cache)
      else (none, cache)
    | .error _ =>
      if truthyStr cache then (some (wechat_parse_name (cache.getD [])), cache)
      else (none, cache)

/-- C4: recognition never raises — an internal capture/provider failure
(`Except.error` from the OCR layer) is caught and produces exactly the
same degraded result as a recognition that yields no candidate.  With an
initialized window handle: if recognition yields no candidate and the
cache holds a non-empty name, that cached name is returned parsed — for
the cache `"王芳"` the contact is `("王芳","王","芳")` — and if no cache
exists and recognition fails the result is `none` (Unknown). -/
theorem get_current_contact_fallback (hwnd : Option Nat)
    (hh : truthyHwnd hwnd = true) :
    (∀ cache, get_current_contact hwnd cache (.error ())
        = get_current_contact hwnd cache (.ok none))
    ∧ (∀ nm, truthyStr (some nm) = true →
        get_current_contact hwnd (some nm) (.ok none)
          = (some (wechat_parse_name nm), some nm))
    ∧ get_current_contact hwnd none (.ok none) = (none, none)
    ∧ get_current_contact hwnd none (.error ()) = (none, none)
    ∧ get_current_contact hwnd (some "王芳".toList) (.error ())
        = (some ⟨"王芳".toList, ['王'], ['芳']⟩, some "王芳".toList) := by
  refine ⟨?_, ?_, ?_, ?_, ?_⟩
  · intro cache
    unfold get_current_contact
    rw [hh]
    rfl
  · intro nm hnm
    unfold get_current_contact
    rw [hh]
    simp [truthyStr, hnm]
    simpa [truthyStr] using hnm
  · unfold get_current_contact
    rw [hh]
    rfl
  · unfold get_current_contact
    rw [hh]
    rfl
  · unfold get_current_contact
    rw [hh]
    norm_num [truthyStr]
    decide

theorem get_current_contact_fallback_witness :
    truthyHwnd (some 7) = true
    ∧ get_current_contact (some 7) (some "王芳".toList) (.error ())
        = (some ⟨"王芳".toList, ['王'], ['芳']⟩, some "王芳".toList) :=
  ⟨by decide, (get_current_contact_fallback (some 7) (by decide)).2.2.2.2⟩

/-- `WeChatHelper.set_contact_name`:
`self.current_contact_name = name.strip() if name else None`. -/
def set_contact_name (nm : List Char) : Option (List Char) :=
  if nm ≠ [] then some (strip nm) else none

/-- The console path `input_contact_name` inside `main.main`: read a
line, strip it, and overwrite the cache only when non-empty. -/
def input_contact_name (cache : Option (List Char)) (line : List Char) :
    Option (List Char) :=
  let nm := strip line
  if nm ≠ [] then set_contact_name nm else cache

/-- C10 (amended): `set_contact_name` itself does not filter its input —
the empty string sets the cache to `None`, but a whitespace-only string
sets it to the empty string, a distinct value that is nevertheless falsy,
so any previously stored name is cleared either way and a subsequent
failed recognition yields Unknown (`none`) instead of a cached fallback.
Only the console input path (`input_contact_name`) filters out input that
is empty after stripping, leaving the cache untouched. -/
theorem set_contact_name_clearing :
    set_contact_name [] = none
    ∧ (∀ ws : List Char, ws ≠ [] → (∀ c ∈ ws, pySpace c = true) →
        set_contact_name ws = some []
        ∧ truthyStr (set_contact_name ws) = false
        ∧ ∀ hwnd, truthyHwnd hwnd = true →
            (get_current_contact hwnd (set_contact_name ws) (.ok none)).1 = none)
    ∧ (∀ cache line, strip line = [] → input_contact_name cache line = cache)
    ∧ (∀ cache line, strip line ≠ [] →
        input_contact_name cache line = set_contact_name (strip line)) := by
  refine ⟨rfl, ?_, ?_, ?_⟩
  · intro ws hne hall
    have hws : strip ws = [] := strip_eq_nil_of_all_space ws hall
    have hset : set_contact_name ws = some [] := by
      unfold set_contact_name
      rw [if_pos hne, hws]
    refine ⟨hset, by rw [hset]; rfl, ?_⟩
    intro hwnd hh
    rw [hset]
    unfold get_current_contact
    rw [hh]
    rfl
  · intro cache line hnil
    unfold input_contact_name
    simp [hnil]
  · intro cache line hne
    unfold input_contact_name
    simp [hne]

theorem set_contact_name_clearing_witness :
    set_contact_name [' ', '\t'] = some []
    ∧ (get_current_contact (some 7) (set_contact_name [' ', '\t']) (.ok none)).1 = none
    ∧ input_contact_name (some "张三".toList) [' '] = some "张三".toList :=
  ⟨(set_contact_name_clearing.2.1 [' ', '\t'] (by decide) (by decide)).1,
   (set_contact_name_clearing.2.1 [' ', '\t'] (by decide) (by decide)).2.2 (some 7) (by decide),
   set_contact_name_clearing.2.2.1 (some "张三".toList) [' '] (by decide)⟩

/-- C10 counterexample: calling `set_contact_name` with the whitespace-only
string `" "` sets the cache to the empty string (Python
`" ".strip() == ""`), not to `None` as the claim states. -/
theorem set_contact_name_whitespace_cx :
    set_contact_name [' '] = some []
    ∧ ¬ set_contact_name [' '] = none := by decide

/-- Which fallible library calls raise during `send_message`:
`pyperclip.paste()` at the start, `pyperclip.copy(message)`, the
`win32api.keybd_event`/`time.sleep` paste sequence, and the final
restoring `pyperclip.copy(old_clipboard)`. -/
structure SendFaults where
  pasteRaises : Bool
  copyMsgRaises : Bool
  keybdRaises : Bool
  restoreRaises : Bool
deriving DecidableEq, Repr

/-- Outcome of `send_message`: the returned boolean and the final
clipboard contents. -/
structure SendResult where
  ok : Bool
  clip : List Char
deriving DecidableEq, Repr

/-- `WeChatHelper.send_message` over an explicit clipboard `clip0` and a
fault schedule: the initial best-effort `paste()` read falls back to `""`
if it raises; a raise in `copy(message)` or in the synthetic-paste key
events is caught by the outer handler, which returns `False` without
touching the clipboard further; the restoring `copy(old_clipboard)` is
best-effort (its failure is swallowed and `True` is still returned). -/
def send_message (message clip0 : List Char) (f : SendFaults) : SendResult :=
  let old := if f.pasteRaises then [] else clip0
  if f.copyMsgRaises then ⟨false, clip0⟩
  else if f.keybdRaises then ⟨false, message⟩
  else if f.restoreRaises then ⟨true, message⟩
  else ⟨true, old⟩

/-- C2 (amended): the clipboard round-trip holds only on the fully
successful path: with no fault, `send_message` returns `true` and the
final clipboard equals the clipboard before the call.  On the caught
exception paths the clipboard is NOT restored: if `copy(message)` raises
the clipboard is merely untouched, but if the synthetic-paste key events
raise after the clipboard was overwritten, the call returns `false` with
the clipboard still holding `message` — restoration is not attempted on
the exception path.  A failing best-effort restore likewise leaves
`message` behind (returning `true`), and a failing initial read restores
`""` instead of the original contents. -/
theorem send_message_clipboard_paths (message clip0 : List Char) (f : SendFaults) :
    (f = ⟨false, false, false, false⟩ → send_message message clip0 f = ⟨true, clip0⟩)
    ∧ (f.copyMsgRaises = true → send_message message clip0 f = ⟨false, clip0⟩)
    ∧ (f.copyMsgRaises = false → f.keybdRaises = true →
        send_message message clip0 f = ⟨false, message⟩)
    ∧ (f.copyMsgRaises = false → f.keybdRaises = false → f.restoreRaises = true →
        send_message message clip0 f = ⟨true, message⟩)
    ∧ (f.pasteRaises = true → f.copyMsgRaises = false → f.keybdRaises = false →
        f.restoreRaises = false → send_message message clip0 f = ⟨true, []⟩) := by
  refine ⟨?_, ?_, ?_, ?_, ?_⟩
  · intro hf
    subst hf
    rfl
  · intro h1
    unfold send_message
    rw [if_pos h1]
  · intro h1 h2
    unfold send_message
    rw [if_neg (by simp [h1]), if_pos h2]
  · intro h1 h2 h3
    unfold send_message
    rw [if_neg (by simp [h1]), if_neg (by simp [h2]), if_pos h3]
  · intro h0 h1 h2 h3
    unfold send_message
    rw [if_neg (by simp [h1]), if_neg (by simp [h2]), if_neg (by simp [h3])]
    simp [h0]

theorem send_message_clipboard_paths_witness :
    send_message "X".toList "Y".toList ⟨false, false, false, false⟩ = ⟨true, "Y".toList⟩
    ∧ send_message "X".toList "Y".toList ⟨false, false, true, false⟩ = ⟨false, "X".toList⟩ :=
  ⟨(send_message_clipboard_paths "X".toList "Y".toList ⟨false, false, false, false⟩).1 rfl,
   (send_message_clipboard_paths "X".toList "Y".toList ⟨false, false, true, false⟩).2.2.1
     rfl rfl⟩

/-- C2 counterexample: when the synthetic-paste key events raise after the
clipboard was overwritten with the message, `send_message` returns `false`
and the final clipboard holds the message `"X"`, not the prior contents
`"Y"` — the claimed round-trip fails and no restoration was attempted on
this caught-exception path. -/
theorem send_message_clipboard_not_restored :
    send_message "X".toList "Y".toList ⟨false, false, true, false⟩
      = ⟨false, "X".toList⟩
    ∧ ¬ (send_message "X".toList "Y".toList ⟨false, false, true, false⟩).clip
        = "Y".toList := by decide

/-- Outcome of the start-up sequence of `main.main`: the process exit
code and whether the hotkey event loop was entered. -/
structure MainOutcome where
  exitCode : Nat
  loopEntered : Bool
deriving DecidableEq, Repr

/-- `main.load_config`: a missing configuration file prints a diagnostic
and calls `sys.exit(1)`. -/
def load_config (configExists : Bool) : Except Nat Unit :=
  if configExists then .ok () else .error 1

/-- `WeChatHelper.init_wechat`: succeeds exactly when the window search
finds a WeChat window. -/
def init_wechat (windowFound : Bool) : Bool :=
  windowFound

/-- The start-up sequence of `main.main`: `load_config()` first (a missing
config exits with code 1); then `init_wechat()` — on failure `main`
prints a diagnostic and plainly returns, so the interpreter exits with
code 0 and the hotkey loop is never started; otherwise the loop runs and
a normal stop exits with code 0. -/
def main_startup (configExists windowFound : Bool) : MainOutcome :=
  match load_config configExists with
  | .error code => ⟨code, false⟩
  | .ok _ =>
    if init_wechat windowFound then ⟨0, true⟩
    else ⟨0, false⟩

/-- C7 (amended): a missing configuration file exits with the non-zero
code 1 before the hotkey loop starts, and when the target window is not
found the hotkey event loop is likewise never entered — but `main` merely
returns, so the process exit code is 0, not non-zero as claimed; the loop
is entered only when both the configuration exists and the window is
found. -/
theorem startup_exit_codes (configExists windowFound : Bool) :
    (configExists = false →
      main_startup configExists windowFound = ⟨1, false⟩
      ∧ (main_startup configExists windowFound).exitCode ≠ 0)
    ∧ (configExists = true → windowFound = false →
        main_startup configExists windowFound = ⟨0, false⟩)
    ∧ ((main_startup configExists windowFound).loopEntered = true →
        configExists = true ∧ windowFound = true) := by
  cases configExists <;> cases windowFound <;> refine ⟨?_, ?_, ?_⟩ <;> decide

theorem startup_exit_codes_witness :
    main_startup false true = ⟨1, false⟩
    ∧ main_startup true false = ⟨0, false⟩ :=
  ⟨((startup_exit_codes false true).1 rfl).1,
   (startup_exit_codes true false).2.1 rfl rfl⟩

/-- C7 counterexample: with a configuration present but the target window
not found, the claim demands a non-zero exit code, yet `main` prints the
diagnostic and returns normally: exit code 0 (the loop is indeed never
entered). -/
theorem window_not_found_exit_zero :
    (main_startup true false).exitCode = 0
    ∧ (main_startup true false).loopEntered = false
    ∧ ¬ (main_startup true false).exitCode ≠ 0 := by decide

/-- The two hotkey triggers of the single-flight scenario. -/
inductive Tid where
  | A
  | B
deriving DecidableEq, Repr

/-- Lifecycle phase of one trigger's handler thread: not yet spawned;
spawned by `on_hotkey` and about to try the non-blocking
`hotkey_lock.acquire`; inside the pipeline with `k` of its three steps
(recognize, generate, inject) done; rejected by the guard; completed. -/
inductive Phase where
  | idle
  | spawned
  | inPipe (k : Nat)
  | rejected
  | completed
deriving DecidableEq, Repr

/-- Global state of the dispatcher model: the `hotkey_lock` flag, each
trigger's phase, the number of pipeline steps each trigger has executed,
and whether the busy notice was printed for it. -/
structure SysState where
  lock : Bool
  phA : Phase
  phB : Phase
  npA : Nat
  npB : Nat
  noticedA : Bool
  noticedB : Bool
deriving DecidableEq, Repr

/-- No trigger fired yet, lock free. -/
def initState : SysState := ⟨false, .idle, .idle, 0, 0, false, false⟩

def isPipe : Phase → Bool
  | .inPipe _ => true
  | _ => false

/-- One atomic step of trigger `t`'s thread, following
`main.on_hotkey`/`main._handle_hotkey`: spawn; the non-blocking acquire,
which rejects immediately with a notice when the lock is held; three
pipeline steps (recognize, generate, inject — the last also releasing
the lock, as the `finally` block does); rejected and completed states
are absorbing (a rejected trigger is never queued or retried). -/
def stepT (t : Tid) (s : SysState) : SysState :=
  match t with
  | .A =>
    match s.phA with
    | .idle => { s with phA := .spawned }
    | .spawned =>
      if s.lock then { s with phA := .rejected, noticedA := true }
      else { s with lock := true, phA := .inPipe 0 }
    | .inPipe k =>
      if k < 2 then { s with phA := .inPipe (k + 1), npA := s.npA + 1 }
      else { s with phA := .completed, npA := s.npA + 1, lock := false }
    | .rejected => s
    | .completed => s
  | .B =>
    match s.phB with
    | .idle => { s with phB := .spawned }
    | .spawned =>
      if s.lock then { s with phB := .rejected, noticedB := true }
      else { s with lock := true, phB := .inPipe 0 }
    | .inPipe k =>
      if k < 2 then { s with phB := .inPipe (k + 1), npB := s.npB + 1 }
      else { s with phB := .completed, npB := s.npB + 1, lock := false }
    | .rejected => s
    | .completed => s

/-- Run a schedule (an arbitrary interleaving of the two threads). -/
def run (sched : List Tid) (s : SysState) : SysState :=
  match sched with
  | [] => s
  | t :: rest => run rest (stepT t s)

/-- Consistency of a phase with the pipeline-step counter. -/
def phOk : Phase → Nat → Prop
  | .idle, n => n = 0
  | .spawned, n => n = 0
  | .rejected, n => n = 0
  | .inPipe k, n => n = k ∧ k ≤ 2
  | .completed, n => n = 3

/-- Inductive invariant of the dispatcher model. -/
def SysInv (s : SysState) : Prop :=
  s.lock = (isPipe s.phA || isPipe s.phB)
  ∧ ¬(isPipe s.phA = true ∧ isPipe s.phB = true)
  ∧ phOk s.phA s.npA ∧ phOk s.phB s.npB
  ∧ (s.phA = .rejected → s.noticedA = true)
  ∧ (s.phB = .rejected → s.noticedB = true)

theorem sysInv_init : SysInv initState := by
  simp [SysInv, initState, isPipe, phOk]

theorem sysInv_step (t : Tid) (s : SysState) (h : SysInv s) : SysInv (stepT t s) := by
  obtain ⟨lk, pa, pb, na, nb, noA, noB⟩ := s
  cases t <;> cases pa <;> cases pb <;>
    simp_all only [SysInv, stepT, isPipe, phOk] <;>
    (try split_ifs) <;>
    (try simp_all) <;>
    omega

theorem sysInv_run (sched : List Tid) (s : SysState) (h : SysInv s) : SysInv (run sched s) := by
  induction sched generalizing s with
  | nil => exact h
  | cons t rest ih => exact ih _ (sysInv_step t s h)

theorem rejectedB_stays (t : Tid) (s : SysState) (h : s.phB = .rejected) :
    (stepT t s).phB = .rejected := by
  obtain ⟨lk, pa, pb, na, nb, noA, noB⟩ := s
  simp only at h
  subst h
  cases t <;> cases pa <;> simp [stepT] <;> split_ifs <;> rfl

theorem rejectedB_run (sched : List Tid) (s : SysState) (h : s.phB = .rejected) :
    (run sched s).phB = .rejected := by
  induction sched generalizing s with
  | nil => exact h
  | cons t rest ih => exact ih _ (rejectedB_stays t s h)

theorem spawnedB_rejected (s : SysState) (hp : s.phB = .spawned)
    (hl : s.lock = true) (hn : s.npB = 0) :
    (stepT .B s).phB = .rejected ∧ (stepT .B s).npB = 0
      ∧ (stepT .B s).noticedB = true := by
  obtain ⟨lk, pa, pb, na, nb, noA, noB⟩ := s
  simp only at hp hl hn
  subst hp
  subst hl
  subst hn
  simp [stepT]

/-- C1 (amended): the single-flight guard gives mutual exclusion, not
arrival-order exclusion.  Over every interleaving: at most one trigger is
ever inside the pipeline; a completed trigger ran all three pipeline
steps; a rejected trigger executed zero pipeline steps (in particular
neither reply generation nor injection) and the busy notice was printed
for it; a trigger whose non-blocking acquire runs while the lock is held
is rejected at that very step; and a rejected trigger stays rejected
under every continuation — it is never queued or retried.  (A trigger
that merely ARRIVES before the other completes, but attempts the guard
after the release, runs normally; see the counterexample.) -/
theorem hotkey_single_flight (sched : List Tid) :
    ¬(isPipe (run sched initState).phA = true ∧ isPipe (run sched initState).phB = true)
    ∧ ((run sched initState).phA = .completed → (run sched initState).npA = 3)
    ∧ ((run sched initState).phB = .completed → (run sched initState).npB = 3)
    ∧ ((run sched initState).phA = .rejected →
        (run sched initState).npA = 0 ∧ (run sched initState).noticedA = true)
    ∧ ((run sched initState).phB = .rejected →
        (run sched initState).npB = 0 ∧ (run sched initState).noticedB = true)
    ∧ ((run sched initState).phB = .spawned → (run sched initState).lock = true →
        (stepT .B (run sched initState)).phB = .rejected
        ∧ (stepT .B (run sched initState)).npB = 0
        ∧ (stepT .B (run sched initState)).noticedB = true)
    ∧ ((run sched initState).phB = .rejected →
        ∀ sched2, (run sched2 (run sched initState)).phB = .rejected) := by
  obtain ⟨h1, h2, h3, h4, h5, h6⟩ := sysInv_run sched initState sysInv_init
  refine ⟨h2, ?_, ?_, ?_, ?_, ?_, ?_⟩
  · intro hc
    rw [hc] at h3
    simpa [phOk] using h3
  · intro hc
    rw [hc] at h4
    simpa [phOk] using h4
  · intro hr
    rw [hr] at h3
    exact ⟨by simpa [phOk] using h3, h5 hr⟩
  · intro hr
    rw [hr] at h4
    exact ⟨by simpa [phOk] using h4, h6 hr⟩
  · intro hp hl
    exact spawnedB_rejected _ hp hl (by rw [hp] at h4; simpa [phOk] using h4)
  · intro hr sched2
    exact rejectedB_run sched2 _ hr

theorem hotkey_single_flight_witness :
    (run [Tid.A, Tid.A, Tid.B, Tid.B] initState).npB = 0
    ∧ (run [Tid.A, Tid.A, Tid.B, Tid.B] initState).noticedB = true :=
  (hotkey_single_flight [Tid.A, Tid.A, Tid.B, Tid.B]).2.2.2.2.1 (by decide)

/-- C1 counterexample: in the interleaving where trigger B's thread is
spawned while trigger A is mid-pipeline — so B arrives strictly before
A's handling completes — but B's non-blocking acquire only runs after A
has released the lock, BOTH triggers run the pipeline to completion and
B executes all three steps including reply generation and injection;
"exactly one of {A, B} runs to completion, the other rejected" is
therefore false for this interleaving: arrival before completion does not
imply rejection, only acquiring while the lock is held does. -/
theorem hotkey_arrival_not_sufficient :
    ((run [Tid.A, Tid.A, Tid.B] initState).phB = .spawned
      ∧ ¬ (run [Tid.A, Tid.A, Tid.B] initState).phA = .completed)
    ∧ (run [Tid.A, Tid.A, Tid.B, Tid.A, Tid.A, Tid.A, Tid.B, Tid.B, Tid.B, Tid.B]
        initState).phA = .completed
    ∧ (run [Tid.A, Tid.A, Tid.B, Tid.A, Tid.A, Tid.A, Tid.B, Tid.B, Tid.B, Tid.B]
        initState).phB = .completed
    ∧ (run [Tid.A, Tid.A, Tid.B, Tid.A, Tid.A, Tid.A, Tid.B, Tid.B, Tid.B, Tid.B]
        initState).npB = 3 := by decide
